import Mathlib

/-!
Shallow embedding of `src/fund/market_heat.py` (market-sentiment scoring
pipeline) and verification of the frozen claims about it.

Modelling conventions:
* Python floats are modelled as exact rationals `ℚ`; every arithmetic
  expression of the source is transcribed literally.  (For the one concrete
  numeric claim about `int(0.35*80+0.35*60+0.30*20)` the IEEE-double
  evaluation is exact — each product is representable — so the rational
  model agrees with the float run.)
* Python `None` / absent fields are `Option.none`; `int(...)` is truncation
  toward zero (`pyInt`); pandas `NaN` cells are `Option.none`.
* External effects (akshare provider calls, HTTP requests, matplotlib) are
  modelled by explicit environment records supplying the outcome of each
  call; raising is an explicit outcome constructor or `Except.error`.
-/

namespace MarketHeat

/-- Python `int(x)` on a real number: truncation toward zero. -/
def pyInt (q : ℚ) : ℤ := if 0 ≤ q then ⌊q⌋ else -⌊-q⌋

/-- `BOLL_WINDOW = 20` (source line 37). -/
def BOLL_WINDOW : ℕ := 20

/-- `BOLL_N = 2` (source line 38). -/
def BOLL_N : ℚ := 2

/-- `WEIGHT_LIQUIDITY = 0.35` (source line 41). -/
def WEIGHT_LIQUIDITY : ℚ := 35 / 100

/-- `WEIGHT_VALUATION = 0.35` (source line 42). -/
def WEIGHT_VALUATION : ℚ := 35 / 100

/-- `WEIGHT_TECHNICAL = 0.30` (source line 43). -/
def WEIGHT_TECHNICAL : ℚ := 30 / 100

/-- `map_to_score(value, min_val, max_val)` (source lines 198–208).
`value` is `none` when the Python value is `None` (or otherwise fails
`float(value)`), in which case the function returns `None`.  If
`max_val == min_val` it returns `50`, otherwise the linear rescale of
`value` clamped into `[0, 100]`. -/
def map_to_score : Option ℚ → ℚ → ℚ → Option ℚ
  | none, _, _ => none
  | some v, min_val, max_val =>
    if max_val = min_val then some 50
    else some (max 0 (min 100 ((v - min_val) / (max_val - min_val) * 100)))

/-- The `macro_dict` argument of `score_liquidity`: the two optional macro
fields the function reads. -/
structure MacroDict where
  m2 : Option ℚ
  social_financing : Option ℚ

/-- The `northbound_dict` argument of `score_liquidity`. -/
structure NorthDict where
  net_inflow_5d : Option ℚ

/-- `score_liquidity(macro_dict, northbound_dict)` (source lines 210–227):
collect `map_to_score` of each present field (m2 over 6–14, social
financing over 8–16, 5-day northbound inflow over 0–1000); if none present
return 50, else `int` of the average. -/
def score_liquidity (mac : MacroDict) (north : NorthDict) : ℤ :=
  let scores := [map_to_score mac.m2 6 14,
                 map_to_score mac.social_financing 8 16,
                 map_to_score north.net_inflow_5d 0 1000].filterMap id
  if scores = [] then 50 else pyInt (scores.sum / (scores.length : ℚ))

/-- The `val_dict` argument of `score_valuation` / result of
`fetch_index_valuation`: four optional scalars. -/
structure ValDict where
  pe_ttm : Option ℚ
  pb : Option ℚ
  pe_pctile : Option ℚ
  pb_pctile : Option ℚ

/-- `score_valuation(val_dict)` (source lines 229–246): average the present
percentiles into `avg_pct` and apply the piecewise mapping, then `int`. -/
def score_valuation (val : ValDict) : ℤ :=
  let pe_pct := val.pe_pctile
  let pb_pct := val.pb_pctile
  if pe_pct = none ∧ pb_pct = none then 50
  else
    let pcts := [pe_pct, pb_pct].filterMap id
    let avg_pct : ℚ := pcts.sum / (pcts.length : ℚ)
    let score : ℚ :=
      if avg_pct < 1/2 then 70 + (1/2 - avg_pct) / (1/2) * 30
      else if avg_pct < 7/10 then 50 + (7/10 - avg_pct) / (2/10) * 20
      else max 0 (50 - (avg_pct - 7/10) / (3/10) * 50)
    pyInt score

/-- `composite = int(WEIGHT_LIQUIDITY*liq + WEIGHT_VALUATION*val +
WEIGHT_TECHNICAL*tech)` (source line 419). -/
def composite_score (liq val tech : ℤ) : ℤ :=
  pyInt (WEIGHT_LIQUIDITY * (liq : ℚ) + WEIGHT_VALUATION * (val : ℚ) +
         WEIGHT_TECHNICAL * (tech : ℚ))

/-- The classification-tier lines appended by `analyze_and_report`
(source lines 422–427). -/
def classify (composite : ℤ) : String :=
  if 75 ≤ composite then "综合结论：热度偏高 → 建议考虑部分止盈/减仓"
  else if 55 ≤ composite then "综合结论：中性偏高 → 注意风险，保持关注"
  else "综合结论：市场偏冷 → 可逢低布局"

/- ### Indicator Engine: `bollinger_bands` (source lines 54–63) -/

/-- One row of the band DataFrame produced by `bollinger_bands`:
`(date, close, mid, var)`.  The source stores the rolling sample standard
deviation `sd` and the derived columns `upper = mid + n·sd`,
`lower = mid − n·sd`; we store the rational rolling sample variance
`var = sd²` and express the source's band comparisons
(`close > upper`, `close < lower`) through their exact algebraic
equivalents `aboveUpper` / `belowLower`, certified against `Real.sqrt` by
`aboveUpper_iff_sqrt` / `belowLower_iff_sqrt` below.  A `none` cell models
a pandas `NaN`. -/
structure BandRow where
  date : ℕ
  close : ℚ
  mid : Option ℚ
  var : Option ℚ
  deriving DecidableEq, Repr

/-- The trailing window of length `window` ending at position `i`. -/
def windowSlice (closes : List ℚ) (window i : ℕ) : List ℚ :=
  (closes.take (i + 1)).drop (i + 1 - window)

/-- `df_close.rolling(window).mean()` at row `i`: defined exactly when the
trailing window is fully populated (pandas yields `NaN` for the first
`window−1` rows; `window ≥ 1` since pandas rejects `rolling(0)`). -/
def rollingMean (closes : List ℚ) (window i : ℕ) : Option ℚ :=
  if 1 ≤ window ∧ window ≤ i + 1 then
    some ((windowSlice closes window i).sum / (window : ℚ))
  else none

/-- `df_close.rolling(window).std()` at row `i`, squared: the rolling
sample variance (pandas uses `ddof = 1`, so a full window and `window ≥ 2`
are required; with a single observation pandas yields `NaN`). -/
def rollingVar (closes : List ℚ) (window i : ℕ) : Option ℚ :=
  if 2 ≤ window ∧ window ≤ i + 1 then
    some (((windowSlice closes window i).map
        (fun x => (x - (windowSlice closes window i).sum / (window : ℚ)) ^ 2)).sum
      / ((window : ℚ) - 1))
  else none

/-- Helper building the rows of the band frame from absolute position `i`. -/
def bandRowsFrom (closes : List ℚ) (window : ℕ) : List (ℕ × ℚ) → ℕ → List BandRow
  | [], _ => []
  | (d, c) :: rest, i =>
    ⟨d, c, rollingMean closes window i, rollingVar closes window i⟩ ::
      bandRowsFrom closes window rest (i + 1)

/-- `bollinger_bands(df_close, window, n)` (source lines 54–63): the result
frame is aligned to the input dates and carries close together with the
rolling mean and (squared) rolling standard deviation; the multiplier `n`
only enters the derived `upper`/`lower` columns, which are consumed through
`aboveUpper`/`belowLower` with `n` passed at the comparison sites. -/
def bollinger_bands (s : List (ℕ × ℚ)) (window : ℕ) : List BandRow :=
  bandRowsFrom (s.map Prod.snd) window s 0

/-- `bb.dropna()`: keep the rows where every cell is defined
(`close` is always defined; `mid`/`upper`/`lower` are defined together
exactly when `mid` and `var` are). -/
def dropna (bb : List BandRow) : List BandRow :=
  bb.filter (fun r => r.mid.isSome && r.var.isSome)

/-- `df.tail(k)`: the last `k` rows. -/
def tailN {α : Type} (k : ℕ) (l : List α) : List α := l.drop (l.length - k)

/-- The source comparison `close > upper` with `upper = mid + n·sd`,
`sd = √var`: for `n > 0` and `var ≥ 0` this is equivalent to
`mid < close ∧ n²·var < (close − mid)²` (proved in `aboveUpper_iff_sqrt`),
which is the decidable rational form used here. -/
def aboveUpper (c m v n : ℚ) : Bool :=
  decide (m < c) && decide (n ^ 2 * v < (c - m) ^ 2)

/-- The source comparison `close < lower` with `lower = mid − n·sd`. -/
def belowLower (c m v n : ℚ) : Bool :=
  decide (c < m) && decide (n ^ 2 * v < (m - c) ^ 2)

/-- The band comparison applied to a row: false on undefined cells (after
`dropna` the cells are always defined). -/
def rowAboveUpper (r : BandRow) (n : ℚ) : Bool :=
  match r.mid, r.var with
  | some m, some v => aboveUpper r.close m v n
  | _, _ => false

/-- The `close < lower` comparison applied to a row. -/
def rowBelowLower (r : BandRow) (n : ℚ) : Bool :=
  match r.mid, r.var with
  | some m, some v => belowLower r.close m v n
  | _, _ => false

/-- `score_technical(idx_close_df)` (source lines 248–257): `(50, None)`
for an absent or empty frame; otherwise 20 if the two most recent
fully-defined band rows both have close above the upper band, else 60. -/
def score_technical (idx_close_df : Option (List (ℕ × ℚ))) :
    ℤ × Option (List BandRow) :=
  match idx_close_df with
  | none => (50, none)
  | some s =>
    if s = [] then (50, none)
    else
      match (tailN 5 (dropna (bollinger_bands s BOLL_WINDOW))).reverse with
      | r1 :: r2 :: _ =>
        if rowAboveUpper r1 BOLL_N && rowAboveUpper r2 BOLL_N then
          (20, some (bollinger_bands s BOLL_WINDOW))
        else (60, some (bollinger_bands s BOLL_WINDOW))
      | _ => (60, some (bollinger_bands s BOLL_WINDOW))

/- ### Portfolio Analyzer: per-holding verdict (source lines 442–451) -/

/-- Verdict string `'短线超买（注意回撤）'` (short-term overbought). -/
def overboughtLine : String := "短线超买（注意回撤）"

/-- Verdict string `'短线超卖（关注反弹）'` (short-term oversold). -/
def oversoldLine : String := "短线超卖（关注反弹）"

/-- Verdict string `'中性'` (neutral). -/
def neutralLine : String := "中性"

/-- The holdings-loop verdict (source lines 442–448): bands over the
fetched series, `last = bb.dropna().tail(3)`; `'短线超买'` needs
`len(last) >= 2` and the most recent close above its upper band; else
`'短线超卖'` if the most recent close is below its lower band; else
`'中性'`. -/
def holdingComment (sdf : List (ℕ × ℚ)) : String :=
  match (tailN 3 (dropna (bollinger_bands sdf BOLL_WINDOW))).reverse with
  | [] => neutralLine
  | r :: _ =>
    if 2 ≤ (tailN 3 (dropna (bollinger_bands sdf BOLL_WINDOW))).length ∧
        rowAboveUpper r BOLL_N = true then overboughtLine
    else if rowBelowLower r BOLL_N = true then oversoldLine
    else neutralLine

/-- `last['close'].iloc[-1] if len(last) > 0 else 'N/A'` (source line 450). -/
def lastCloseOf (sdf : List (ℕ × ℚ)) : Option ℚ :=
  ((tailN 3 (dropna (bollinger_bands sdf BOLL_WINDOW))).reverse.head?).map BandRow.close

/-- A 20-day series: nineteen closes of 1 followed by a close of 100.  It
has exactly one fully-defined band row (index 19, mean `119/20`, sample
variance `9801/20`), and the close 100 lies above the upper band. -/
def spikeSeries : List (ℕ × ℚ) :=
  [(0, 1), (1, 1), (2, 1), (3, 1), (4, 1), (5, 1), (6, 1), (7, 1), (8, 1), (9, 1),
   (10, 1), (11, 1), (12, 1), (13, 1), (14, 1), (15, 1), (16, 1), (17, 1), (18, 1),
   (19, 100)]

/- ### Symbol normalisation (source lines 67–74 and 141–143) -/

/-- Whitespace removed by Python `str.strip()`. -/
def isPySpace (c : Char) : Bool :=
  c = ' ' || c = '\t' || c = '\n' || c = '\r' || c = '\x0b' || c = '\x0c'

/-- Python `str.strip()` on a character list. -/
def stripChars (l : List Char) : List Char :=
  ((l.dropWhile isPySpace).reverse.dropWhile isPySpace).reverse

/-- Left-to-right non-overlapping removal of the three-character pattern
`[p1, p2, p3]`, as Python `str.replace(pat, '')` for the three-character
exchange-suffix patterns used by the source. -/
def removePat3 (p1 p2 p3 : Char) : List Char → List Char
  | a :: b :: c :: rest =>
    if a = p1 ∧ b = p2 ∧ c = p3 then removePat3 p1 p2 p3 rest
    else a :: removePat3 p1 p2 p3 (b :: c :: rest)
  | l => l

/-- `_clean_index_symbol(code)` (source lines 67–74): lowercase and strip,
remove every `'.sh'` and `'.sz'` occurrence, and return the candidate
spellings `[c, 'sh'+c, 'sz'+c]`. -/
def clean_index_symbol (code : String) : List String :=
  let c := String.mk (removePat3 '.' 's' 'z'
    (removePat3 '.' 's' 'h' ((stripChars code.toList).map Char.toLower)))
  [c, "sh" ++ c, "sz" ++ c]

/-- The symbol cleaning of `fetch_stock_daily` (source lines 142–143):
strip, then remove `'.SZ'`, `'.SH'`, `'.sz'`, `'.sh'` in that order. -/
def clean_stock_code (code : String) : String :=
  String.mk (removePat3 '.' 's' 'h' (removePat3 '.' 's' 'z'
    (removePat3 '.' 'S' 'H' (removePat3 '.' 'S' 'Z' (stripChars code.toList)))))

/-- The symbol cleaning of the holdings loop (source line 435): same four
replacements but without `strip()`. -/
def loopCleanCode (code : String) : String :=
  String.mk (removePat3 '.' 's' 'h' (removePat3 '.' 's' 'z'
    (removePat3 '.' 'S' 'H' (removePat3 '.' 'S' 'Z' code.toList))))

/- ### Series Fetcher: `fetch_daily_index` (source lines 76–128) -/

/-- A provider DataFrame as seen by `fetch_daily_index` after
`reset_index` and the `trade_date → date` rename: whether the date and
close columns are recognised, and its `(date, close)` rows. -/
structure IdxDF where
  hasDate : Bool
  hasClose : Bool
  rows : List (ℕ × ℚ)
  deriving DecidableEq

/-- One provider call outcome: an exception, a non-DataFrame result, or a
DataFrame. -/
inductive ProvResp
  | raises
  | notDF
  | df (d : IdxDF)
  deriving DecidableEq

/-- The external world of `fetch_daily_index`: the outcome of
`ak.stock_zh_index_daily(symbol=·)` and of the fallback
`ak.index_zh_a_hist(symbol=·)`. -/
structure IdxEnv where
  primary : String → ProvResp
  secondary : String → ProvResp

/-- A call succeeds when it returns a non-empty DataFrame whose date and
close columns are recognised (source lines 87–104, 112–122); exceptions
and near-miss frames are swallowed. -/
def idxSuccess (r : ProvResp) : Option (List (ℕ × ℚ)) :=
  match r with
  | .df d =>
    if d.rows ≠ [] ∧ d.hasDate = true ∧ d.hasClose = true then some d.rows else none
  | _ => none

/-- The candidate loop of `fetch_daily_index` (source lines 86–109). -/
def tryCandidates (env : IdxEnv) : List String → Option (List (ℕ × ℚ))
  | [] => none
  | c :: rest =>
    match idxSuccess (env.primary c) with
    | some rows => some rows
    | none => tryCandidates env rest

/-- `fetch_daily_index(code)` (source lines 76–128): try each candidate
spelling on the primary endpoint in order; if all fail, fall back to the
secondary endpoint with the hard-coded symbol `'000905'`; if that also
fails, return `None`. -/
def fetch_daily_index (env : IdxEnv) (code : String) : Option (List (ℕ × ℚ)) :=
  match tryCandidates env (clean_index_symbol code) with
  | some rows => some rows
  | none => idxSuccess (env.secondary "000905")

/-- An environment where the primary endpoint never yields a usable frame
and the secondary endpoint has data only for `'000905'`. -/
def fallbackEnv : IdxEnv where
  primary := fun _ => ProvResp.notDF
  secondary := fun s =>
    if s = "000905" then ProvResp.df ⟨true, true, [(0, 5)]⟩ else ProvResp.notDF

/- ### Series Fetcher: `fetch_stock_daily` (source lines 130–195) -/

/-- What one `ak.stock_zh_a_hist` attempt yields: an exception, a `None`
or empty frame, or a frame (whether the date/close columns are recognised
after the alias normalisation, and its close cells after
`pd.to_numeric(errors='coerce')`, `none` = unparseable). -/
inductive AttemptOutcome
  | raises
  | empty
  | df (recognized : Bool) (closes : List (Option ℚ))
  deriving DecidableEq

/-- The environment of one `fetch_stock_daily` call: whether
`import akshare` succeeds and the provider outcome of each numbered
attempt for a given provider symbol. -/
structure StockEnv where
  importOk : Bool
  attempt : String → ℕ → AttemptOutcome

/-- The body of one retry iteration (source lines 152–192): empty frames,
unrecognised columns and an all-NaN close column all raise a `ValueError`
that the handler catches; a usable frame returns its parsed closes. -/
def attemptResult (o : AttemptOutcome) : Option (List ℚ) :=
  match o with
  | .raises => none
  | .empty => none
  | .df recognized closes =>
    if recognized then
      let vals := closes.filterMap id
      if vals = [] then none else some vals
    else none

/-- The retry loop (source line 151): attempts numbered from `a`, with
`fuel` attempts remaining. -/
def tryAttempts (env : StockEnv) (code : String) : ℕ → ℕ → Option (List ℚ)
  | 0, _ => none
  | fuel + 1, a =>
    match attemptResult (env.attempt code a) with
    | some s => some s
    | none => tryAttempts env code fuel (a + 1)

/-- `fetch_stock_daily(stock_code, retry)` (source lines 130–195).
`safe_import_akshare()` is called before the protective try/except of the
retry loop (source lines 46–52 and 138), so an import failure escapes to
the caller (`Except.error`); afterwards every failure is caught and the
function returns `None` (`Except.ok none`) once the retry budget is
exhausted. -/
def fetch_stock_daily (env : StockEnv) (stock_code : String) (retry : ℕ) :
    Except String (Option (List ℚ)) :=
  if env.importOk = false then Except.error "ImportError"
  else Except.ok (tryAttempts env (clean_stock_code stock_code) retry 1)

/- ### Portfolio Analyzer: holdings loop (source lines 430–464) -/

/-- A report line emitted by the holdings loop; the constructors carry the
content of the three f-string shapes (skip, verdict, per-symbol failure),
whose exact text rendering belongs to the Report Assembler. -/
inductive ReportLine
  | skipped (code : String)
  | verdict (code : String) (comment : String) (lastClose : Option ℚ)
  | failed (code : String)
  deriving DecidableEq

/-- The outcome of `fetch_stock_daily(clean_code)` inside the loop: an
exception (only the import-failure re-raise can escape it), the no-data
value `None`, or a series. -/
inductive FetchRes
  | raises
  | nodata
  | data (s : List (ℕ × ℚ))

/-- Per-provider-symbol environment of the loop body: the fetch outcome
and whether the subsequent chart rendering raises (the matplotlib import
and `savefig` run inside the per-symbol try, after the verdict line is
appended). -/
structure SymEnv where
  fetch : FetchRes
  plotFails : Bool

/-- The lines the loop body appends for one holding (source lines
432–464): a caught exception appends the failure line; `None` appends the
skip line and continues; otherwise the verdict line is appended and, if
chart rendering then raises, the failure line follows it. -/
def symbolLines (env : String → SymEnv) (code : String) : List ReportLine :=
  match (env (loopCleanCode code)).fetch with
  | .raises => [.failed code]
  | .nodata => [.skipped code]
  | .data s =>
    .verdict code (holdingComment s) (lastCloseOf s) ::
      (if (env (loopCleanCode code)).plotFails then [.failed code] else [])

/-- The holdings loop with its `report_lines` accumulator (the per-symbol
lines are appended to the running report). -/
def analyzeHoldingsAux (env : String → SymEnv) :
    List String → List ReportLine → List ReportLine
  | [], acc => acc
  | code :: rest, acc =>
    let acc2 :=
      match (env (loopCleanCode code)).fetch with
      | .raises => acc ++ [.failed code]
      | .nodata => acc ++ [.skipped code]
      | .data s =>
        let acc3 := acc ++ [.verdict code (holdingComment s) (lastCloseOf s)]
        if (env (loopCleanCode code)).plotFails then acc3 ++ [.failed code] else acc3
    analyzeHoldingsAux env rest acc2

/-- The holdings section of `analyze_and_report` (source lines 430–464). -/
def analyzeHoldings (env : String → SymEnv) (holdings : List String) :
    List ReportLine :=
  analyzeHoldingsAux env holdings []

/-- An environment where the fetch succeeds but chart rendering raises. -/
def plotFailEnv : String → SymEnv := fun _ => ⟨FetchRes.data [(0, 1)], true⟩

/-- An environment with no data for any symbol. -/
def constSymEnv : String → SymEnv := fun _ => ⟨FetchRes.nodata, false⟩

/-- A second environment differing from `constSymEnv` only at the provider
symbol `'999999'`. -/
def constSymEnv2 : String → SymEnv := fun s =>
  if s = "999999" then ⟨FetchRes.raises, true⟩ else ⟨FetchRes.nodata, false⟩

/- ### Macro/Valuation Fetcher: `fetch_index_valuation` (source lines 259–322) -/

/-- Round-half-to-even to an integer. -/
def roundHalfEven (x : ℚ) : ℤ :=
  if x - ⌊x⌋ < 1/2 then ⌊x⌋
  else if 1/2 < x - ⌊x⌋ then ⌊x⌋ + 1
  else if ⌊x⌋ % 2 = 0 then ⌊x⌋ else ⌊x⌋ + 1

/-- Python `round(x, nd)` modelled on exact rationals (Python rounds the
IEEE double half-to-even; the claims under verification do not depend on
tie behaviour). -/
def pyRound (x : ℚ) (nd : ℕ) : ℚ :=
  (roundHalfEven (x * 10 ^ nd) : ℚ) / 10 ^ nd

/-- The external world of `fetch_index_valuation`: whether the k-line and
quote requests return usable data, the raw `f115`/`f117` fields (`none` =
key absent, in which case `data.get(.., 0)` yields 0), whether the two
percentile requests succeed, and the raw `percentile` fields. -/
structure ValEnv where
  quoteOk : Bool
  f115 : Option ℚ
  f117 : Option ℚ
  pctOk : Bool
  pePct : Option ℚ
  pbPct : Option ℚ

/-- `fetch_index_valuation(index_code)` (source lines 259–322): on any
quote failure return the all-`None` snapshot; otherwise apply the Python
truthiness guards `round(pe, 2) if pe else None` and
`round(p/100, 4) if p else None` to each field. -/
def fetch_index_valuation (env : ValEnv) : ValDict :=
  if env.quoteOk = false then ⟨none, none, none, none⟩
  else
    let pe := env.f115.getD 0
    let pb := env.f117.getD 0
    let pe_pct := if env.pctOk then env.pePct else none
    let pb_pct := if env.pctOk then env.pbPct else none
    { pe_ttm := if pe ≠ 0 then some (pyRound pe 2) else none
      pb := if pb ≠ 0 then some (pyRound pb 2) else none
      pe_pctile :=
        match pe_pct with
        | some p => if p ≠ 0 then some (pyRound (p / 100) 4) else none
        | none => none
      pb_pctile :=
        match pb_pct with
        | some p => if p ≠ 0 then some (pyRound (p / 100) 4) else none
        | none => none }

/- ### Helper lemmas on `pyInt` and score bounds -/

theorem pyInt_nonneg_le {q : ℚ} (h0 : 0 ≤ q) (h1 : q ≤ 100) :
    0 ≤ pyInt q ∧ pyInt q ≤ 100 := by
  unfold pyInt
  rw [if_pos h0]
  constructor
  · exact Int.le_floor.mpr (by exact_mod_cast h0)
  · have hf : (⌊q⌋ : ℚ) ≤ q := Int.floor_le q
    have : (⌊q⌋ : ℚ) ≤ (100 : ℚ) := le_trans hf h1
    exact_mod_cast this

theorem map_to_score_mem_unit {v lo hi s : ℚ}
    (h : map_to_score (some v) lo hi = some s) : 0 ≤ s ∧ s ≤ 100 := by
  simp only [map_to_score] at h
  by_cases he : hi = lo
  · rw [if_pos he] at h
    cases h
    norm_num
  · rw [if_neg he] at h
    cases h
    refine ⟨le_max_left _ _, ?_⟩
    exact max_le (by norm_num) (min_le_left _ _)

theorem avg_mem_unit_interval {l : List ℚ} (hne : l ≠ [])
    (hb : ∀ x ∈ l, 0 ≤ x ∧ x ≤ 100) :
    0 ≤ l.sum / (l.length : ℚ) ∧ l.sum / (l.length : ℚ) ≤ 100 := by
  have hlen : 0 < (l.length : ℚ) := by
    have : 0 < l.length := List.length_pos.mpr hne
    exact_mod_cast this
  have hsum0 : 0 ≤ l.sum := List.sum_nonneg fun x hx => (hb x hx).1
  have hsum1 : l.sum ≤ (l.length : ℚ) * 100 := by
    have := List.sum_le_card_nsmul l 100 fun x hx => (hb x hx).2
    simpa [nsmul_eq_mul] using this
  constructor
  · exact div_nonneg hsum0 (le_of_lt hlen)
  · rw [div_le_iff₀ hlen]
    linarith

/-- Claim helper: the liquidity sub-score is always in `[0, 100]`. -/
theorem map_to_score_result_mem {o : Option ℚ} {lo hi s : ℚ}
    (h : map_to_score o lo hi = some s) : 0 ≤ s ∧ s ≤ 100 := by
  cases o with
  | none => exact Option.noConfusion h
  | some v => exact map_to_score_mem_unit h

theorem score_liquidity_bounds (mac : MacroDict) (north : NorthDict) :
    0 ≤ score_liquidity mac north ∧ score_liquidity mac north ≤ 100 := by
  unfold score_liquidity
  set scores := [map_to_score mac.m2 6 14,
                 map_to_score mac.social_financing 8 16,
                 map_to_score north.net_inflow_5d 0 1000].filterMap id with hs
  by_cases hempty : scores = []
  · rw [if_pos hempty]
    norm_num
  · rw [if_neg hempty]
    have hb : ∀ x ∈ scores, 0 ≤ x ∧ x ≤ 100 := by
      intro x hx
      rw [hs] at hx
      simp only [List.mem_filterMap, List.mem_cons, List.not_mem_nil, id] at hx
      obtain ⟨o, ho, hox⟩ := hx
      rcases ho with h | h | h | h
      · subst h; exact map_to_score_result_mem hox
      · subst h; exact map_to_score_result_mem hox
      · subst h; exact map_to_score_result_mem hox
      · exact h.elim
    have hmem := avg_mem_unit_interval hempty hb
    exact pyInt_nonneg_le hmem.1 hmem.2

/-- Claim helper: with present percentiles in `[0, 1]`, the valuation
sub-score is in `[0, 100]`. -/
theorem score_valuation_bounds (val : ValDict)
    (hpe : ∀ p, val.pe_pctile = some p → 0 ≤ p ∧ p ≤ 1)
    (hpb : ∀ p, val.pb_pctile = some p → 0 ≤ p ∧ p ≤ 1) :
    0 ≤ score_valuation val ∧ score_valuation val ≤ 100 := by
  unfold score_valuation
  by_cases hnone : val.pe_pctile = none ∧ val.pb_pctile = none
  · rw [if_pos hnone]
    norm_num
  · rw [if_neg hnone]
    have havg : 0 ≤ ([val.pe_pctile, val.pb_pctile].filterMap id).sum /
        (([val.pe_pctile, val.pb_pctile].filterMap id).length : ℚ) ∧
        ([val.pe_pctile, val.pb_pctile].filterMap id).sum /
        (([val.pe_pctile, val.pb_pctile].filterMap id).length : ℚ) ≤ 1 := by
      cases h1 : val.pe_pctile with
      | none =>
        cases h2 : val.pb_pctile with
        | none => exact absurd ⟨h1, h2⟩ hnone
        | some b =>
          have hb := hpb b h2
          simp only [List.filterMap, id, h1, h2]
          norm_num
          constructor <;> linarith [hb.1, hb.2]
      | some a =>
        have ha := hpe a h1
        cases h2 : val.pb_pctile with
        | none =>
          simp only [List.filterMap, id, h1, h2]
          norm_num
          constructor <;> linarith [ha.1, ha.2]
        | some b =>
          have hb := hpb b h2
          simp only [List.filterMap, id, h1, h2]
          norm_num
          constructor <;> linarith [ha.1, ha.2, hb.1, hb.2]
    set avg : ℚ := ([val.pe_pctile, val.pb_pctile].filterMap id).sum /
        (([val.pe_pctile, val.pb_pctile].filterMap id).length : ℚ) with havgdef
    apply pyInt_nonneg_le
    · by_cases hc1 : avg < 1/2
      · rw [if_pos hc1]; nlinarith [havg.1, havg.2]
      · rw [if_neg hc1]
        by_cases hc2 : avg < 7/10
        · rw [if_pos hc2]; nlinarith [havg.1, havg.2]
        · rw [if_neg hc2]; exact le_max_left _ _
    · by_cases hc1 : avg < 1/2
      · rw [if_pos hc1]; nlinarith [havg.1, havg.2]
      · rw [if_neg hc1]
        by_cases hc2 : avg < 7/10
        · rw [if_pos hc2]; nlinarith [havg.1, havg.2]
        · rw [if_neg hc2]
          apply max_le (by norm_num)
          push_neg at hc1 hc2
          nlinarith [havg.2]

/-- **C7.** For `lo < hi`, `map_to_score` on a present value is clamped
into `[0,100]`, takes the value `0` at `lo` (and below) and `100` at `hi`
(and above), and is non-decreasing in the value. -/
theorem map_to_score_spec (lo hi : ℚ) (hlt : lo < hi) :
    (∀ x s, map_to_score (some x) lo hi = some s → 0 ≤ s ∧ s ≤ 100) ∧
    map_to_score (some lo) lo hi = some 0 ∧
    map_to_score (some hi) lo hi = some 100 ∧
    (∀ x y sx sy, x ≤ y → map_to_score (some x) lo hi = some sx →
      map_to_score (some y) lo hi = some sy → sx ≤ sy) ∧
    (∀ x, x ≤ lo → map_to_score (some x) lo hi = some 0) ∧
    (∀ x, hi ≤ x → map_to_score (some x) lo hi = some 100) := by
  have hne : hi ≠ lo := ne_of_gt hlt
  have hpos : 0 < hi - lo := sub_pos.mpr hlt
  refine ⟨?_, ?_, ?_, ?_, ?_, ?_⟩
  · intro x s h
    exact map_to_score_mem_unit h
  · simp only [map_to_score, if_neg hne]
    norm_num
  · simp only [map_to_score, if_neg hne]
    rw [div_self (ne_of_gt hpos)]
    norm_num
  · intro x y sx sy hxy hx hy
    simp only [map_to_score, if_neg hne, Option.some_inj] at hx hy
    subst hx; subst hy
    have hmono : (x - lo) / (hi - lo) * 100 ≤ (y - lo) / (hi - lo) * 100 := by
      apply mul_le_mul_of_nonneg_right _ (by norm_num : (0:ℚ) ≤ 100)
      exact (div_le_div_iff_of_pos_right hpos).mpr (by linarith)
    exact max_le_max le_rfl (min_le_min le_rfl hmono)
  · intro x hx
    simp only [map_to_score, if_neg hne]
    have hq : (x - lo) / (hi - lo) * 100 ≤ 0 := by
      apply mul_nonpos_of_nonpos_of_nonneg _ (by norm_num : (0:ℚ) ≤ 100)
      exact div_nonpos_of_nonpos_of_nonneg (by linarith) (le_of_lt hpos)
    have : min 100 ((x - lo) / (hi - lo) * 100) ≤ 0 :=
      le_trans (min_le_right _ _) hq
    rw [max_eq_left this]
  · intro x hx
    simp only [map_to_score, if_neg hne]
    have hq : (100 : ℚ) ≤ (x - lo) / (hi - lo) * 100 := by
      have h1 : (1 : ℚ) ≤ (x - lo) / (hi - lo) := by
        rw [le_div_iff₀ hpos]
        linarith
      nlinarith
    rw [min_eq_left hq, max_eq_right (by norm_num : (0:ℚ) ≤ 100)]

/-- Witness for C7 at `lo = 0`, `hi = 1`. -/
theorem map_to_score_spec_witness : map_to_score (some 0) 0 1 = some 0 :=
  (map_to_score_spec 0 1 (by norm_num)).2.1

/-- **C2.** With the default weights, the composite for sub-scores
`(80, 60, 20)` is `int(0.35*80+0.35*60+0.30*20) = 55` (the IEEE-double run
computes the same value exactly), and a composite of exactly 55 falls in
the "elevated, stay alert" tier (`综合结论：中性偏高 → 注意风险，保持关注`):
the 55 boundary is inclusive and resolves upward. -/
theorem composite_example_and_tier :
    composite_score 80 60 20 = 55 ∧
    classify (composite_score 80 60 20) = "综合结论：中性偏高 → 注意风险，保持关注" := by
  have h : composite_score 80 60 20 = 55 := by
    unfold composite_score pyInt WEIGHT_LIQUIDITY WEIGHT_VALUATION WEIGHT_TECHNICAL
    norm_num
  refine ⟨h, ?_⟩
  rw [h]
  rfl

/-- `aboveUpper` agrees exactly with the real-number comparison
`mid + n·√var < close` of the source. -/
theorem aboveUpper_iff_sqrt (c m v n : ℚ) (hv : 0 ≤ v) (hn : 0 < n) :
    aboveUpper c m v n = true ↔
      ((m : ℝ) + (n : ℝ) * Real.sqrt (v : ℝ) < (c : ℝ)) := by
  have hv' : (0 : ℝ) ≤ (v : ℝ) := by exact_mod_cast hv
  have hn' : (0 : ℝ) < (n : ℝ) := by exact_mod_cast hn
  have hs0 : (0 : ℝ) ≤ Real.sqrt (v : ℝ) := Real.sqrt_nonneg _
  have hsq : Real.sqrt (v : ℝ) ^ 2 = (v : ℝ) := Real.sq_sqrt hv'
  have ha : (0 : ℝ) ≤ (n : ℝ) * Real.sqrt (v : ℝ) := mul_nonneg (le_of_lt hn') hs0
  simp only [aboveUpper, Bool.and_eq_true, decide_eq_true_eq]
  constructor
  · rintro ⟨h1, h2⟩
    have h1' : (m : ℝ) < (c : ℝ) := by exact_mod_cast h1
    have h2' : ((n : ℝ)) ^ 2 * (v : ℝ) < ((c : ℝ) - (m : ℝ)) ^ 2 := by exact_mod_cast h2
    have hab : ((n : ℝ) * Real.sqrt (v : ℝ)) ^ 2 < ((c : ℝ) - (m : ℝ)) ^ 2 := by
      rw [mul_pow, hsq]; exact h2'
    by_contra hcon
    push_neg at hcon
    have hba : (c : ℝ) - (m : ℝ) ≤ (n : ℝ) * Real.sqrt (v : ℝ) := by linarith
    have : ((c : ℝ) - (m : ℝ)) ^ 2 ≤ ((n : ℝ) * Real.sqrt (v : ℝ)) ^ 2 :=
      sq_le_sq' (by linarith) hba
    linarith
  · intro h
    have hlt : (n : ℝ) * Real.sqrt (v : ℝ) < (c : ℝ) - (m : ℝ) := by linarith
    refine ⟨by exact_mod_cast (show (m : ℝ) < (c : ℝ) by linarith), ?_⟩
    have : ((n : ℝ)) ^ 2 * (v : ℝ) < ((c : ℝ) - (m : ℝ)) ^ 2 := by
      nlinarith [mul_self_lt_mul_self ha hlt, hsq]
    exact_mod_cast this

/-- `belowLower` agrees exactly with the real-number comparison
`close < mid − n·√var` of the source. -/
theorem belowLower_iff_sqrt (c m v n : ℚ) (hv : 0 ≤ v) (hn : 0 < n) :
    belowLower c m v n = true ↔
      ((c : ℝ) < (m : ℝ) - (n : ℝ) * Real.sqrt (v : ℝ)) := by
  have hv' : (0 : ℝ) ≤ (v : ℝ) := by exact_mod_cast hv
  have hn' : (0 : ℝ) < (n : ℝ) := by exact_mod_cast hn
  have hs0 : (0 : ℝ) ≤ Real.sqrt (v : ℝ) := Real.sqrt_nonneg _
  have hsq : Real.sqrt (v : ℝ) ^ 2 = (v : ℝ) := Real.sq_sqrt hv'
  have ha : (0 : ℝ) ≤ (n : ℝ) * Real.sqrt (v : ℝ) := mul_nonneg (le_of_lt hn') hs0
  simp only [belowLower, Bool.and_eq_true, decide_eq_true_eq]
  constructor
  · rintro ⟨h1, h2⟩
    have h1' : (c : ℝ) < (m : ℝ) := by exact_mod_cast h1
    have h2' : ((n : ℝ)) ^ 2 * (v : ℝ) < ((m : ℝ) - (c : ℝ)) ^ 2 := by exact_mod_cast h2
    have hab : ((n : ℝ) * Real.sqrt (v : ℝ)) ^ 2 < ((m : ℝ) - (c : ℝ)) ^ 2 := by
      rw [mul_pow, hsq]; exact h2'
    by_contra hcon
    push_neg at hcon
    have hba : (m : ℝ) - (c : ℝ) ≤ (n : ℝ) * Real.sqrt (v : ℝ) := by linarith
    have : ((m : ℝ) - (c : ℝ)) ^ 2 ≤ ((n : ℝ) * Real.sqrt (v : ℝ)) ^ 2 :=
      sq_le_sq' (by linarith) hba
    linarith
  · intro h
    have hlt : (n : ℝ) * Real.sqrt (v : ℝ) < (m : ℝ) - (c : ℝ) := by linarith
    refine ⟨by exact_mod_cast (show (c : ℝ) < (m : ℝ) by linarith), ?_⟩
    have : ((n : ℝ)) ^ 2 * (v : ℝ) < ((m : ℝ) - (c : ℝ)) ^ 2 := by
      nlinarith [mul_self_lt_mul_self ha hlt, hsq]
    exact_mod_cast this

/- ### Structural lemmas about the band frame -/

theorem bandRowsFrom_length (closes : List ℚ) (window : ℕ) :
    ∀ (s : List (ℕ × ℚ)) (i : ℕ), (bandRowsFrom closes window s i).length = s.length := by
  intro s
  induction s with
  | nil => intro i; rfl
  | cons hd tl ih =>
    intro i
    cases hd with
    | mk d c => simp [bandRowsFrom, ih (i + 1)]

theorem bandRowsFrom_get? (closes : List ℚ) (window : ℕ) :
    ∀ (s : List (ℕ × ℚ)) (i j : ℕ),
      (bandRowsFrom closes window s i).get? j =
        (s.get? j).map (fun p =>
          ⟨p.1, p.2, rollingMean closes window (i + j), rollingVar closes window (i + j)⟩) := by
  intro s
  induction s with
  | nil => intro i j; simp [bandRowsFrom]
  | cons hd tl ih =>
    intro i j
    cases hd with
    | mk d c =>
      cases j with
      | zero => simp [bandRowsFrom]
      | succ j' =>
        have harith : i + (j' + 1) = (i + 1) + j' := by omega
        simp only [bandRowsFrom, List.get?_cons_succ, ih (i + 1) j', harith]

theorem bandRowsFrom_mem (closes : List ℚ) (window : ℕ) :
    ∀ (s : List (ℕ × ℚ)) (i : ℕ) (r : BandRow), r ∈ bandRowsFrom closes window s i →
      ∃ k, i ≤ k ∧ k < i + s.length ∧
        r.mid = rollingMean closes window k ∧ r.var = rollingVar closes window k := by
  intro s
  induction s with
  | nil => intro i r hr; simp [bandRowsFrom] at hr
  | cons hd tl ih =>
    intro i r hr
    cases hd with
    | mk d c =>
      simp only [bandRowsFrom, List.mem_cons] at hr
      rcases hr with h | h
      · exact ⟨i, le_refl i, by simp, by rw [h], by rw [h]⟩
      · obtain ⟨k, hk1, hk2, hk3⟩ := ih (i + 1) r h
        exact ⟨k, by omega, by simp at hk2 ⊢; omega, hk3⟩

theorem tailN_reverse {α : Type} (k : ℕ) (l : List α) :
    (tailN k l).reverse = l.reverse.take k := by
  have h := List.rtake_eq_reverse_take_reverse (l := l) (n := k)
  have he : tailN k l = l.rtake k := rfl
  rw [he, h, List.reverse_reverse]

/-- **C8.** For `window ≥ 2` (pandas sample std needs at least two
observations; the source always uses `window = 20`): the band frame is
aligned to the input dates; for a series shorter than the window every
`mid`/`upper`/`lower` cell is undefined (`none`, never zero); for a series
of length ≥ window, row `i` is defined exactly when `window − 1 ≤ i`, so
exactly the first `window − 1` dates are undefined. -/
theorem bollinger_bands_definedness (s : List (ℕ × ℚ)) (window : ℕ) (hw : 2 ≤ window) :
    (bollinger_bands s window).map BandRow.date = s.map Prod.fst ∧
    (s.length < window →
      ∀ r ∈ bollinger_bands s window, r.mid = none ∧ r.var = none) ∧
    (window ≤ s.length →
      ∀ j, j < s.length →
        ((bollinger_bands s window).get? j).map
            (fun r => r.mid.isSome && r.var.isSome) =
          some (decide (window - 1 ≤ j))) := by
  refine ⟨?_, ?_, ?_⟩
  · unfold bollinger_bands
    generalize s.map Prod.snd = closes
    induction s with
    | nil => rfl
    | cons hd tl ih =>
      cases hd with
      | mk d c =>
        show BandRow.date ⟨d, c, _, _⟩ :: _ = d :: _
        refine congrArg (d :: ·) ?_
        have hgen : ∀ (t : List (ℕ × ℚ)) (i : ℕ),
            (bandRowsFrom closes window t i).map BandRow.date = t.map Prod.fst := by
          intro t
          induction t with
          | nil => intro i; rfl
          | cons h2 t2 ih2 =>
            intro i
            cases h2 with
            | mk d2 c2 => simp [bandRowsFrom, ih2 (i + 1)]
        exact hgen tl 1
  · intro hshort r hr
    obtain ⟨k, hk1, hk2, hmid, hvar⟩ := bandRowsFrom_mem _ _ s 0 r hr
    have hklt : k + 1 ≤ s.length := by omega
    have hcond : ¬(window ≤ k + 1) := by omega
    constructor
    · rw [hmid, rollingMean, if_neg (by tauto)]
    · rw [hvar, rollingVar, if_neg (by omega)]
  · intro hlong j hj
    have hj' : j < (bandRowsFrom (s.map Prod.snd) window s 0).length := by
      rw [bandRowsFrom_length]; exact hj
    unfold bollinger_bands
    rw [bandRowsFrom_get?]
    have hsome : ∃ p, s.get? j = some p := by
      rw [List.get?_eq_get hj]
      exact ⟨_, rfl⟩
    obtain ⟨p, hp⟩ := hsome
    rw [hp]
    simp only [Option.map_some, Nat.zero_add]
    by_cases hcond : window - 1 ≤ j
    · rw [rollingMean, if_pos (by omega), rollingVar, if_pos (by omega)]
      simp [hcond]
    · rw [rollingMean, if_neg (by omega), rollingVar, if_neg (by omega)]
      simp [hcond]

/-- Witness for C8 at `window = 20` and a 1-point series. -/
theorem bollinger_bands_definedness_witness :
    (bollinger_bands [((7 : ℕ), (3 : ℚ))] 20).map BandRow.date =
      [((7 : ℕ), (3 : ℚ))].map Prod.fst :=
  (bollinger_bands_definedness [((7 : ℕ), (3 : ℚ))] 20 (by norm_num)).1

/- ### Claim C3: technical score on a short series -/

/-- **C3 (counterexample).** The one-point series is non-empty and yields
zero (< 2) defined band points, yet `score_technical` returns 60, not the
claimed neutral 50 (50 is returned only for an absent or empty frame). -/
theorem score_technical_short_series_cex :
    ([((0 : ℕ), (1 : ℚ))] ≠ []) ∧
    (dropna (bollinger_bands [((0 : ℕ), (1 : ℚ))] BOLL_WINDOW)).length < 2 ∧
    (score_technical (some [((0 : ℕ), (1 : ℚ))])).1 = 60 ∧
    ¬((score_technical (some [((0 : ℕ), (1 : ℚ))])).1 = 50) := by
  refine ⟨by decide, by decide, by decide, by decide⟩

/-- **C3 (amended).** For every non-empty price series whose band
computation yields fewer than 2 defined trailing band points, the
technical sub-score is 60 (the neutral-to-safe default branch); the value
50 is produced only for an absent or empty input frame. -/
theorem score_technical_short_series_amended (s : List (ℕ × ℚ)) (hne : s ≠ [])
    (hfew : (dropna (bollinger_bands s BOLL_WINDOW)).length < 2) :
    (score_technical (some s)).1 = 60 := by
  have hlen : (tailN 5 (dropna (bollinger_bands s BOLL_WINDOW))).reverse.length < 2 := by
    rw [List.length_reverse]
    have hle : (tailN 5 (dropna (bollinger_bands s BOLL_WINDOW))).length ≤
        (dropna (bollinger_bands s BOLL_WINDOW)).length := by
      unfold tailN
      rw [List.length_drop]
      omega
    omega
  simp only [score_technical]
  rw [if_neg hne]
  rcases hrev : (tailN 5 (dropna (bollinger_bands s BOLL_WINDOW))).reverse
    with _ | ⟨r1, _ | ⟨r2, rest⟩⟩
  · rfl
  · rfl
  · rw [hrev] at hlen
    simp only [List.length_cons] at hlen
    omega

/-- Witness for the amended C3 at a concrete two-point series. -/
theorem score_technical_short_series_amended_witness :
    (score_technical (some [((0 : ℕ), (2 : ℚ)), ((1 : ℕ), (3 : ℚ))])).1 = 60 :=
  score_technical_short_series_amended [((0 : ℕ), (2 : ℚ)), ((1 : ℕ), (3 : ℚ))]
    (by decide) (by decide)

/-- Concrete evaluation of the band pipeline on `spikeSeries`: exactly one
fully-defined row, at date 19 with mean `119/20` and variance `9801/20`. -/
theorem spike_band_eval :
    dropna (bollinger_bands spikeSeries BOLL_WINDOW) =
      [⟨19, 100, some (119/20), some (9801/20)⟩] := by
  norm_num [spikeSeries, bollinger_bands, bandRowsFrom, rollingMean, rollingVar,
    windowSlice, dropna, List.filter, BOLL_WINDOW]

/-- **C4 (counterexample).** For `spikeSeries` a defined band point exists
and the most recent close is above its upper band, yet the verdict is
`'中性'` (neutral), not overbought: the source requires at least two
defined band rows before it can report overbought. -/
theorem holding_verdict_single_point_cex :
    (dropna (bollinger_bands spikeSeries BOLL_WINDOW)).length = 1 ∧
    (∀ r ∈ dropna (bollinger_bands spikeSeries BOLL_WINDOW),
      rowAboveUpper r BOLL_N = true) ∧
    holdingComment spikeSeries = neutralLine ∧
    holdingComment spikeSeries ≠ overboughtLine := by
  have hneu : holdingComment spikeSeries = neutralLine := by
    simp only [holdingComment, spike_band_eval]
    norm_num [tailN, rowAboveUpper, rowBelowLower, aboveUpper, belowLower, BOLL_N]
  refine ⟨by rw [spike_band_eval]; rfl, ?_, hneu, ?_⟩
  · intro r hr
    rw [spike_band_eval] at hr
    simp only [List.mem_singleton] at hr
    subst hr
    norm_num [rowAboveUpper, aboveUpper, BOLL_N]
  · rw [hneu]
    decide

/-- **C4 (amended).** In the holdings loop, when at least one defined band
row exists (most recent row `r`, older defined rows `rest`), the verdict
is: overbought iff there are at least two defined rows in the 3-tail and
`r`'s close is above its upper band; else oversold iff `r`'s close is
below its lower band; else neutral.  In particular a most-recent close
above the upper band with only one defined band row yields neutral, not
overbought. -/
theorem holding_verdict_amended (sdf : List (ℕ × ℚ)) (r : BandRow) (rest : List BandRow)
    (h : (dropna (bollinger_bands sdf BOLL_WINDOW)).reverse = r :: rest) :
    holdingComment sdf =
      (if rest ≠ [] ∧ rowAboveUpper r BOLL_N = true then overboughtLine
       else if rowBelowLower r BOLL_N = true then oversoldLine
       else neutralLine) := by
  have htail : (tailN 3 (dropna (bollinger_bands sdf BOLL_WINDOW))).reverse =
      r :: rest.take 2 := by
    rw [tailN_reverse, h]
    rfl
  have hlen : (tailN 3 (dropna (bollinger_bands sdf BOLL_WINDOW))).length =
      (rest.take 2).length + 1 := by
    rw [← List.length_reverse, htail]
    simp
  simp only [holdingComment]
  split
  · next heq =>
      rw [htail] at heq
      exact absurd heq (by simp)
  · next r' rest' heq =>
      rw [htail] at heq
      cases heq
      rw [hlen]
      by_cases hr0 : rest = []
      · subst hr0
        simp
      · have h2 : (2 : ℕ) ≤ (rest.take 2).length + 1 := by
          cases rest with
          | nil => exact absurd rfl hr0
          | cons a t => simp
        have h3 : 1 ≤ rest.length := by
          cases rest with
          | nil => exact absurd rfl hr0
          | cons a t => simp
        simp [h2, hr0, h3]

/-- Witness for the amended C4 at `spikeSeries` (single defined row). -/
theorem holding_verdict_amended_witness :
    holdingComment spikeSeries =
      (if ([] : List BandRow) ≠ [] ∧
          rowAboveUpper ⟨19, 100, some (119/20), some (9801/20)⟩ BOLL_N = true
        then overboughtLine
        else if rowBelowLower ⟨19, 100, some (119/20), some (9801/20)⟩ BOLL_N = true
          then oversoldLine
        else neutralLine) :=
  holding_verdict_amended spikeSeries ⟨19, 100, some (119/20), some (9801/20)⟩ []
    (by rw [spike_band_eval]; rfl)

/- ### Claim C1: totality and range of the Scoring Engine -/

theorem score_technical_cases (idx : Option (List (ℕ × ℚ))) :
    (score_technical idx).1 = 50 ∨ (score_technical idx).1 = 20 ∨
      (score_technical idx).1 = 60 := by
  cases idx with
  | none => exact Or.inl rfl
  | some s =>
    simp only [score_technical]
    by_cases hs : s = []
    · rw [if_pos hs]
      exact Or.inl rfl
    · rw [if_neg hs]
      rcases hrev : (tailN 5 (dropna (bollinger_bands s BOLL_WINDOW))).reverse
        with _ | ⟨r1, _ | ⟨r2, rest⟩⟩
      · exact Or.inr (Or.inr rfl)
      · exact Or.inr (Or.inr rfl)
      · by_cases hab : (rowAboveUpper r1 BOLL_N && rowAboveUpper r2 BOLL_N) = true
        · right; left
          simp only [hab, if_true]
        · right; right
          simp only [if_neg hab]

theorem score_technical_bounds (idx : Option (List (ℕ × ℚ))) :
    0 ≤ (score_technical idx).1 ∧ (score_technical idx).1 ≤ 100 := by
  rcases score_technical_cases idx with h | h | h <;> rw [h] <;> norm_num

theorem composite_score_bounds {liq val tech : ℤ}
    (hl0 : 0 ≤ liq) (hl1 : liq ≤ 100) (hv0 : 0 ≤ val) (hv1 : val ≤ 100)
    (ht0 : 0 ≤ tech) (ht1 : tech ≤ 100) :
    0 ≤ composite_score liq val tech ∧ composite_score liq val tech ≤ 100 := by
  unfold composite_score WEIGHT_LIQUIDITY WEIGHT_VALUATION WEIGHT_TECHNICAL
  have c0 : (0 : ℚ) ≤ (liq : ℚ) := by exact_mod_cast hl0
  have c1 : (liq : ℚ) ≤ 100 := by exact_mod_cast hl1
  have c2 : (0 : ℚ) ≤ (val : ℚ) := by exact_mod_cast hv0
  have c3 : (val : ℚ) ≤ 100 := by exact_mod_cast hv1
  have c4 : (0 : ℚ) ≤ (tech : ℚ) := by exact_mod_cast ht0
  have c5 : (tech : ℚ) ≤ 100 := by exact_mod_cast ht1
  exact pyInt_nonneg_le (by linarith) (by linarith)

/-- **C1.** The Scoring Engine is total on the embedding and, for every
combination of present/absent macro fields, northbound flow, valuation
percentiles (present ones in `[0,1]`) and index band data, each sub-score
and the composite weighted score lie in `[0, 100]`. -/
theorem scoring_engine_total (mac : MacroDict) (north : NorthDict) (val : ValDict)
    (idx : Option (List (ℕ × ℚ)))
    (hpe : ∀ p, val.pe_pctile = some p → 0 ≤ p ∧ p ≤ 1)
    (hpb : ∀ p, val.pb_pctile = some p → 0 ≤ p ∧ p ≤ 1) :
    (0 ≤ score_liquidity mac north ∧ score_liquidity mac north ≤ 100) ∧
    (0 ≤ score_valuation val ∧ score_valuation val ≤ 100) ∧
    (0 ≤ (score_technical idx).1 ∧ (score_technical idx).1 ≤ 100) ∧
    (0 ≤ composite_score (score_liquidity mac north) (score_valuation val)
        (score_technical idx).1 ∧
      composite_score (score_liquidity mac north) (score_valuation val)
        (score_technical idx).1 ≤ 100) := by
  have hl := score_liquidity_bounds mac north
  have hv := score_valuation_bounds val hpe hpb
  have ht := score_technical_bounds idx
  exact ⟨hl, hv, ht, composite_score_bounds hl.1 hl.2 hv.1 hv.2 ht.1 ht.2⟩

/-- Witness for C1 at concrete inputs (m2 present, PE percentile 1/2). -/
theorem scoring_engine_total_witness :
    0 ≤ score_liquidity ⟨some 10, none⟩ ⟨none⟩ ∧
      score_liquidity ⟨some 10, none⟩ ⟨none⟩ ≤ 100 :=
  (scoring_engine_total ⟨some 10, none⟩ ⟨none⟩ ⟨none, none, some (1/2), none⟩ none
    (by intro p hp; cases hp; norm_num)
    (by intro p hp; cases hp)).1

/-- **C9 (counterexample).** Requesting `'999999.sh'` when every candidate
spelling derived from it fails still returns a series: the one served by
the secondary endpoint for the fixed symbol `'000905'`, which is not among
the candidates derived from the requested symbol — so the returned series
need not correspond to the requested symbol. -/
theorem fetch_daily_index_fallback_cex :
    (∀ c ∈ clean_index_symbol "999999.sh", idxSuccess (fallbackEnv.primary c) = none) ∧
    fetch_daily_index fallbackEnv "999999.sh" = some [(0, 5)] ∧
    ¬("000905" ∈ clean_index_symbol "999999.sh") := by
  refine ⟨?_, rfl, by decide⟩
  intro c _
  rfl

/-- First-match characterisation of the candidate loop. -/
theorem tryCandidates_spec (env : IdxEnv) :
    ∀ cs : List String,
      (∃ pre c post, cs = pre ++ c :: post ∧
        (∀ c2 ∈ pre, idxSuccess (env.primary c2) = none) ∧
        ∃ rows, idxSuccess (env.primary c) = some rows ∧
          tryCandidates env cs = some rows) ∨
      ((∀ c ∈ cs, idxSuccess (env.primary c) = none) ∧
        tryCandidates env cs = none) := by
  intro cs
  induction cs with
  | nil => exact Or.inr ⟨by simp, rfl⟩
  | cons c rest ih =>
    cases hc : idxSuccess (env.primary c) with
    | some rows =>
      exact Or.inl ⟨[], c, rest, by simp, by simp, rows, hc,
        by simp [tryCandidates, hc]⟩
    | none =>
      rcases ih with ⟨pre, c2, post, heq, hpre, rows, hsucc, hres⟩ | ⟨hall, hres⟩
      · refine Or.inl ⟨c :: pre, c2, post, by simp [heq], ?_, rows, hsucc,
          by simp [tryCandidates, hc, hres]⟩
        intro x hx
        rcases List.mem_cons.mp hx with h | h
        · subst h; exact hc
        · exact hpre x h
      · refine Or.inr ⟨?_, by simp [tryCandidates, hc, hres]⟩
        intro x hx
        rcases List.mem_cons.mp hx with h | h
        · subst h; exact hc
        · exact hall x h

/-- **C9 (amended).** `fetch_daily_index` tries the candidate spellings
derived from the requested symbol in order and returns the first
non-empty schema-conformant primary response; only when every candidate
fails does it fall back to the secondary endpoint with the fixed symbol
`'000905'` (independent of the requested code), returning that endpoint's
response — so only series from the candidate phase are guaranteed to
correspond to the requested symbol. -/
theorem fetch_daily_index_amended (env : IdxEnv) (code : String) :
    (∃ pre c post, clean_index_symbol code = pre ++ c :: post ∧
      (∀ c2 ∈ pre, idxSuccess (env.primary c2) = none) ∧
      ∃ rows, idxSuccess (env.primary c) = some rows ∧
        fetch_daily_index env code = some rows) ∨
    ((∀ c ∈ clean_index_symbol code, idxSuccess (env.primary c) = none) ∧
      fetch_daily_index env code = idxSuccess (env.secondary "000905")) := by
  rcases tryCandidates_spec env (clean_index_symbol code) with
    ⟨pre, c, post, heq, hpre, rows, hsucc, hres⟩ | ⟨hall, hres⟩
  · exact Or.inl ⟨pre, c, post, heq, hpre, rows, hsucc,
      by simp [fetch_daily_index, hres]⟩
  · exact Or.inr ⟨hall, by simp [fetch_daily_index, hres]⟩

/-- **C5 (counterexample).** When the provider library fails to import,
`fetch_stock_daily` raises (the `safe_import_akshare` re-raise) instead of
returning the explicit no-data value. -/
theorem fetch_stock_daily_import_cex :
    fetch_stock_daily ⟨false, fun _ _ => AttemptOutcome.empty⟩ "300502.SZ" 2 =
      Except.error "ImportError" := rfl

theorem tryAttempts_all_fail (env : StockEnv) (code : String) :
    ∀ (fuel a : ℕ), (∀ k, attemptResult (env.attempt code k) = none) →
      tryAttempts env code fuel a = none := by
  intro fuel
  induction fuel with
  | zero => intro a _; rfl
  | succ n ih =>
    intro a h
    simp only [tryAttempts, h a]
    exact ih (a + 1) h

/-- **C5 (amended).** Provided the provider library imports successfully,
`fetch_stock_daily` never raises — it returns `ok` — and when every
attempt in the retry budget fails it returns the explicit no-data value
`ok none`.  (The claim as stated fails only in the import-failure case,
where the `ImportError` propagates to the caller.) -/
theorem fetch_stock_daily_no_raise_amended (env : StockEnv) (stock_code : String)
    (retry : ℕ) (himp : env.importOk = true) :
    (∃ r, fetch_stock_daily env stock_code retry = Except.ok r) ∧
    ((∀ k, attemptResult (env.attempt (clean_stock_code stock_code) k) = none) →
      fetch_stock_daily env stock_code retry = Except.ok none) := by
  unfold fetch_stock_daily
  rw [if_neg (by simp [himp])]
  constructor
  · exact ⟨_, rfl⟩
  · intro h
    rw [tryAttempts_all_fail env (clean_stock_code stock_code) retry 1 h]

/-- Witness for the amended C5: import succeeds, every attempt raises. -/
theorem fetch_stock_daily_no_raise_amended_witness :
    fetch_stock_daily ⟨true, fun _ _ => AttemptOutcome.raises⟩ "300502.SZ" 2 =
      Except.ok none :=
  (fetch_stock_daily_no_raise_amended ⟨true, fun _ _ => AttemptOutcome.raises⟩
    "300502.SZ" 2 rfl).2 (fun _ => rfl)

/-- **C6 (counterexample).** With one holding whose chart rendering raises
after its verdict line was appended, the loop emits two lines for that
symbol (the verdict line, then the caught-exception failure line): the
report does not have exactly one line per symbol. -/
theorem analyze_holdings_two_lines_cex :
    (analyzeHoldings plotFailEnv ["300502.SZ"]).length = 2 ∧
    analyzeHoldings plotFailEnv ["300502.SZ"] =
      [ReportLine.verdict "300502.SZ" neutralLine none,
       ReportLine.failed "300502.SZ"] :=
  ⟨rfl, rfl⟩

theorem analyzeHoldingsAux_append (env : String → SymEnv) :
    ∀ (hs : List String) (acc : List ReportLine),
      analyzeHoldingsAux env hs acc = acc ++ hs.flatMap (symbolLines env) := by
  intro hs
  induction hs with
  | nil => intro acc; simp [analyzeHoldingsAux]
  | cons code rest ih =>
    intro acc
    simp only [analyzeHoldingsAux, List.flatMap_cons]
    cases hf : (env (loopCleanCode code)).fetch with
    | raises => rw [ih]; simp [symbolLines, hf]
    | nodata => rw [ih]; simp [symbolLines, hf]
    | data s =>
      rw [ih]
      by_cases hp : (env (loopCleanCode code)).plotFails = true <;>
        simp [symbolLines, hf, hp]

theorem symbolLines_congr (env env2 : String → SymEnv) (code : String)
    (h : env (loopCleanCode code) = env2 (loopCleanCode code)) :
    symbolLines env code = symbolLines env2 code := by
  simp only [symbolLines, h]

/-- **C6 (amended).** The holdings loop emits the per-symbol lines in
input order (the report is the concatenation of each symbol's lines); a
symbol contributes at least one and at most two lines — two exactly when
its chart rendering raises after the verdict line; and the lines of each
symbol depend only on that symbol's provider environment, so a failure at
one symbol never aborts the batch or changes another symbol's lines. -/
theorem analyze_holdings_amended (env env2 : String → SymEnv)
    (holdings : List String) :
    analyzeHoldings env holdings = holdings.flatMap (symbolLines env) ∧
    (∀ code, 1 ≤ (symbolLines env code).length ∧
      (symbolLines env code).length ≤ 2) ∧
    (∀ code, (symbolLines env code).length = 2 →
      (env (loopCleanCode code)).plotFails = true) ∧
    ((∀ code ∈ holdings, env (loopCleanCode code) = env2 (loopCleanCode code)) →
      analyzeHoldings env holdings = analyzeHoldings env2 holdings) := by
  refine ⟨by simpa using analyzeHoldingsAux_append env holdings [], ?_, ?_, ?_⟩
  · intro code
    unfold symbolLines
    cases (env (loopCleanCode code)).fetch with
    | raises => simp
    | nodata => simp
    | data s =>
      by_cases hp : (env (loopCleanCode code)).plotFails = true <;> simp [hp]
  · intro code h2
    unfold symbolLines at h2
    cases hf : (env (loopCleanCode code)).fetch with
    | raises => rw [hf] at h2; simp at h2
    | nodata => rw [hf] at h2; simp at h2
    | data s =>
      rw [hf] at h2
      by_cases hp : (env (loopCleanCode code)).plotFails = true
      · exact hp
      · rw [if_neg hp] at h2
        simp at h2
  · intro hagree
    have h1 := analyzeHoldingsAux_append env holdings []
    have h2 := analyzeHoldingsAux_append env2 holdings []
    unfold analyzeHoldings
    rw [h1, h2]
    simp only [List.nil_append]
    have : ∀ hs : List String,
        (∀ code ∈ hs, env (loopCleanCode code) = env2 (loopCleanCode code)) →
        hs.flatMap (symbolLines env) = hs.flatMap (symbolLines env2) := by
      intro hs
      induction hs with
      | nil => intro _; rfl
      | cons c rest ih =>
        intro hag
        simp only [List.flatMap_cons]
        rw [symbolLines_congr env env2 c (hag c (by simp)),
          ih (fun x hx => hag x (by simp [hx]))]
    exact this holdings hagree

/-- Witness for the amended C6: the two environments agree on the holding
`'300502.SZ'`, so the reports agree. -/
theorem analyze_holdings_amended_witness :
    analyzeHoldings constSymEnv ["300502.SZ"] =
      analyzeHoldings constSymEnv2 ["300502.SZ"] :=
  (analyze_holdings_amended constSymEnv constSymEnv2 ["300502.SZ"]).2.2.2
    (by intro c hc; rw [List.mem_singleton] at hc; subst hc; rfl)

/-- **C10.** Whenever a provider numeric field is exactly 0 — raw PE
(`f115`), raw PB (`f117`), or either percentile — the returned snapshot
reports that field as absent (`None`): the Python truthiness guards make a
zero reading indistinguishable from a missing one at the interface. -/
theorem fetch_index_valuation_zero_absent (env : ValEnv) :
    (env.f115 = some 0 → (fetch_index_valuation env).pe_ttm = none) ∧
    (env.f117 = some 0 → (fetch_index_valuation env).pb = none) ∧
    (env.pePct = some 0 → (fetch_index_valuation env).pe_pctile = none) ∧
    (env.pbPct = some 0 → (fetch_index_valuation env).pb_pctile = none) := by
  unfold fetch_index_valuation
  by_cases hq : env.quoteOk = false
  · rw [if_pos hq]
    exact ⟨fun _ => rfl, fun _ => rfl, fun _ => rfl, fun _ => rfl⟩
  · rw [if_neg hq]
    refine ⟨fun h => by simp [h], fun h => by simp [h], ?_, ?_⟩
    · intro h
      by_cases hp : env.pctOk = true <;> simp [h, hp]
    · intro h
      by_cases hp : env.pctOk = true <;> simp [h, hp]

/-- Witness for C10: every raw field reads exactly 0; every public field
is absent. -/
theorem fetch_index_valuation_zero_absent_witness :
    (fetch_index_valuation ⟨true, some 0, some 0, true, some 0, some 0⟩).pe_ttm =
      none :=
  (fetch_index_valuation_zero_absent ⟨true, some 0, some 0, true, some 0, some 0⟩).1
    rfl

/-- Witness for the amended C9 at the concrete environment `fallbackEnv`
and the request `'999999.sh'`. -/
theorem fetch_daily_index_amended_witness :
    (∃ pre c post, clean_index_symbol "999999.sh" = pre ++ c :: post ∧
      (∀ c2 ∈ pre, idxSuccess (fallbackEnv.primary c2) = none) ∧
      ∃ rows, idxSuccess (fallbackEnv.primary c) = some rows ∧
        fetch_daily_index fallbackEnv "999999.sh" = some rows) ∨
    ((∀ c ∈ clean_index_symbol "999999.sh",
        idxSuccess (fallbackEnv.primary c) = none) ∧
      fetch_daily_index fallbackEnv "999999.sh" =
        idxSuccess (fallbackEnv.secondary "000905")) :=
  fetch_daily_index_amended fallbackEnv "999999.sh"

end MarketHeat
